import Mathlib

/-!
# Verification of the style-transfer optimization engine

Shallow embedding of the two scripts `Gatys.py` and `main.py` of the
image-style-transfer repository.  Machine floats are modelled by `ℚ`;
a computation that produces no finite number (a `NaN` arising from the
mean of an empty tensor, or a raised `ZeroDivisionError`) is modelled
by `Option`, with `none` standing for the absent finite value.
An activation tensor of shape `(1, C, H, W)` is a triple of dimensions
together with a data function; entries outside the dimension bounds are
irrelevant junk (every operation only reads indices below the bounds).
-/

namespace StyleTransfer

/-- A tensor of shape `(1, C, H, W)` (the batch dimension is always 1 in
both scripts, so it is not represented). -/
structure Tensor4 where
  C : ℕ
  H : ℕ
  W : ℕ
  data : ℕ → ℕ → ℕ → ℚ

/-- A square matrix result of `gram`, with its size. -/
structure Mat where
  n : ℕ
  entry : ℕ → ℕ → ℚ

/-- Model of `torch.Tensor.numel` for a `(1, C, H, W)` tensor. -/
def Tensor4.numel (X : Tensor4) : ℕ := 1 * X.C * X.H * X.W

/-- Model of `Y.detach()`: at the level of values the detached tensor is the same
tensor (detaching only cuts the autograd graph; see the dual-number
development below for the gradient semantics). -/
def Tensor4.detach (X : Tensor4) : Tensor4 := X

/-- Embeds `content_loss(Y_hat, Y) = torch.square(Y_hat - Y.detach()).mean()`
(both scripts, identical text).  The mean ranges over all
`numel = C*H*W` entries; the entries are read at `Y_hat`'s shape, the
shapes of the two arguments being equal whenever the function is called. -/
def content_loss (Y_hat Y : Tensor4) : ℚ :=
  (∑ c in Finset.range Y_hat.C, ∑ h in Finset.range Y_hat.H, ∑ w in Finset.range Y_hat.W,
      (Y_hat.data c h w - (Y.detach).data c h w) ^ 2) / (Y_hat.C * Y_hat.H * Y_hat.W)

/-- Embeds `gram(X)`: with `num_channels = X.shape[1]` and
`n = X.numel() // X.shape[1]`, reshape `X` to `(num_channels, n)` in
row-major order and return `matmul(X, X.T) / n` (both scripts, identical
text).  Row `c` of the reshaped matrix reads the original entries
`X[0, c, k / W, k % W]` for `k < n`. -/
def gram (X : Tensor4) : Mat :=
  let n : ℕ := X.numel / X.C
  ⟨X.C, fun i j =>
    (∑ k in Finset.range n, X.data i (k / X.W) (k % X.W) * X.data j (k / X.W) (k % X.W)) / n⟩

/-- Embeds `style_loss(Y_hat, gram_Y) = torch.square(gram(Y_hat) - gram_Y.detach()).mean() / 4`
(both scripts, identical text).  The mean ranges over the `(C, C)` entries. -/
def style_loss (Y_hat : Tensor4) (gram_Y : Mat) : ℚ :=
  ((∑ i in Finset.range Y_hat.C, ∑ j in Finset.range Y_hat.C,
      ((gram Y_hat).entry i j - gram_Y.entry i j) ^ 2) / (Y_hat.C * Y_hat.C)) / 4

/-- Mean absolute difference between vertically adjacent pixels:
`torch.abs(Y_hat[:, :, 1:, :] - Y_hat[:, :, :-1, :]).mean()`,
a mean over `C * (H-1) * W` entries. -/
def meanV (X : Tensor4) : ℚ :=
  (∑ c in Finset.range X.C, ∑ h in Finset.range (X.H - 1), ∑ w in Finset.range X.W,
      |X.data c (h + 1) w - X.data c h w|) / ((X.C * (X.H - 1) * X.W : ℕ) : ℚ)

/-- Mean absolute difference between horizontally adjacent pixels:
`torch.abs(Y_hat[:, :, :, 1:] - Y_hat[:, :, :, :-1]).mean()`,
a mean over `C * H * (W-1)` entries. -/
def meanH (X : Tensor4) : ℚ :=
  (∑ c in Finset.range X.C, ∑ h in Finset.range X.H, ∑ w in Finset.range (X.W - 1),
      |X.data c h (w + 1) - X.data c h w|) / ((X.C * X.H * (X.W - 1) : ℕ) : ℚ)

/-- Embeds `tv_loss(Y_hat) = 0.5 * (meanV + meanH)` (both scripts, identical text).
In torch the mean of an empty tensor is `NaN` (not an exception), and a
`NaN` summand poisons the result; `none` models that non-finite outcome,
which occurs exactly when one of the two difference tensors is empty. -/
def tv_loss (X : Tensor4) : Option ℚ :=
  if X.C * (X.H - 1) * X.W = 0 ∨ X.C * X.H * (X.W - 1) = 0 then none
  else some ((1 / 2) * (meanV X + meanH X))

/-- The list comprehension
`[content_loss(Y_hat, Y) * weight for Y_hat, Y in zip(contents_Y_hat, contents_Y_)]`
(both scripts; `weight` is the respective content weight constant). -/
def weighted_content_losses (w : ℚ) (contents_Y_hat contents_Y : List Tensor4) : List ℚ :=
  List.zipWith (fun Y_hat Y => content_loss Y_hat Y * w) contents_Y_hat contents_Y

/-- The list comprehension
`[style_loss(Y_hat, Y) * weight for Y_hat, Y in zip(styles_Y_hat, styles_Y_gram)]`
(both scripts; `weight` is the respective style weight constant). -/
def weighted_style_losses (w : ℚ) (styles_Y_hat : List Tensor4) (styles_Y_gram : List Mat) :
    List ℚ :=
  List.zipWith (fun Y_hat Y => style_loss Y_hat Y * w) styles_Y_hat styles_Y_gram

namespace Gatys

/-- Constants `CONTENT_WEIGHT, STYLE_WEIGHT, TV_WEIGHT = 8, 5000, 80` (Gatys.py line 138). -/
def CONTENT_WEIGHT : ℚ := 8
def STYLE_WEIGHT : ℚ := 5000
def TV_WEIGHT : ℚ := 80

/-- The style normalization subterm of the total in Gatys.py line 157:
`sum(styles_l) / len(styles_l)`. -/
def styleTerm (styles_l : List ℚ) : ℚ := styles_l.sum / styles_l.length

/-- Embeds `compute_loss` of Gatys.py (lines 141-158).  Returns
`(contents_l, styles_l, tv_l, l_)`.  The outer `Option` models the
`ZeroDivisionError` raised by `sum(styles_l) / len(styles_l)` when the
style list is empty; the inner `Option ℚ` scalars model possibly-`NaN`
values flowing out of `tv_loss` (a `NaN` `tv_l` makes the total `NaN`). -/
def compute_loss (X : Tensor4) (contents_Y_hat styles_Y_hat contents_Y : List Tensor4)
    (styles_Y_gram : List Mat) : Option (List ℚ × List ℚ × Option ℚ × Option ℚ) :=
  let contents_l := weighted_content_losses CONTENT_WEIGHT contents_Y_hat contents_Y
  let styles_l := weighted_style_losses STYLE_WEIGHT styles_Y_hat styles_Y_gram
  let tv_l := (tv_loss X).map (fun t => t * TV_WEIGHT)
  if styles_l.length = 0 then none
  else some (contents_l, styles_l, tv_l,
    tv_l.map (fun t => styleTerm styles_l + contents_l.sum + t))

end Gatys

namespace MainPy

/-- Constants `content_weight, style_weight, tv_weight = 8, 5000, 0` (main.py line 106). -/
def content_weight : ℚ := 8
def style_weight : ℚ := 5000
def tv_weight : ℚ := 0

/-- The style normalization subterm of the total in main.py line 117:
`sum(styles_l) / 5`. -/
def styleTerm (styles_l : List ℚ) : ℚ := styles_l.sum / 5

/-- Embeds `compute_loss` of main.py (lines 109-118).  It never raises: the style
sum is divided by the literal `5`, and `sum([tv_l]) = tv_l`.  The
`Option ℚ` scalars model possibly-`NaN` values from `tv_loss`
(note `NaN * 0 = NaN`, so the zero tv weight does not mask a `NaN`). -/
def compute_loss (X : Tensor4) (contents_Y_hat styles_Y_hat contents_Y : List Tensor4)
    (styles_Y_gram : List Mat) : List ℚ × List ℚ × Option ℚ × Option ℚ :=
  let contents_l := weighted_content_losses content_weight contents_Y_hat contents_Y
  let styles_l := weighted_style_losses style_weight styles_Y_hat styles_Y_gram
  let tv_l := (tv_loss X).map (fun t => t * tv_weight)
  (contents_l, styles_l, tv_l,
    tv_l.map (fun t => styleTerm styles_l + contents_l.sum + t))

end MainPy

/-! ## Feature extractor and network construction

The network layers (VGG19 convolutions, ReLUs, poolings) are external
pretrained collaborators; a layer is modelled abstractly as a tensor
transformer.  What is embedded from the source is the indexing
discipline: the construction of the truncated network and the
extraction loop. -/

/-- A network layer: a callable `tensor -> tensor` (the weights of the
pretrained network are fixed external data). -/
def Layer := Tensor4 → Tensor4

/-- The construction
`nn.Sequential(*[Pretrained_CNN.features[i] for i in range(max(Content_Layers + Style_Layers) + 1)])`
(Gatys.py lines 17-18, main.py lines 16-17).  Python's `features[i]`
raises `IndexError` when `i` is out of range, modelled by `List.get?`
inside `mapM`: the whole construction yields `none` (a startup
configuration error) exactly when the maximum requested depth reaches
past the pretrained feature list. -/
def incompleteCNN (features : List Layer) (content_layers style_layers : List ℕ) :
    Option (List Layer) :=
  (List.range ((content_layers ++ style_layers).foldl max 0 + 1)).mapM
    (fun i => features.get? i)

/-- Embeds `extract_features(X, content_layers_, style_layers_)` (Gatys.py
lines 50-65, main.py lines 42-55): iterate `X = net[i](X)` for
`i in range(len(net))`, appending the current activation to the style
list when `i in style_layers_` and to the content list when
`i in content_layers_`; returns `(contents, styles)`.  The `net[i]`
lookup is modelled by `List.get?` so that an out-of-range access would
surface as `none`. -/
def extract_features (net : List Layer) (X : Tensor4) (content_layers style_layers : List ℕ) :
    Option (List Tensor4 × List Tensor4) := do
  let st ← (List.range net.length).foldlM
    (fun (st : Tensor4 × List Tensor4 × List Tensor4) i => do
      let layer ← net.get? i
      let X1 := layer st.1
      let styles := if i ∈ style_layers then st.2.2 ++ [X1] else st.2.2
      let contents := if i ∈ content_layers then st.2.1 ++ [X1] else st.2.1
      pure (X1, contents, styles))
    (X, ([] : List Tensor4), ([] : List Tensor4))
  pure (st.2.1, st.2.2)

namespace Gatys

/-- Embeds `get_inits(X, device_, lr, styles_Y_)` (Gatys.py lines 183-197):
builds a `SynthesizedImage` whose sole parameter is copied from `X`
(`gen_img.weight.data.copy_(X.data)`), precomputes the reference Gram
matrices, and returns `(gen_img(), styles_Y_gram, trainer)`; the
returned image therefore equals `X` in value.  The optimizer object is
library state and is abstracted away here. -/
def get_inits (X : Tensor4) (styles_Y : List Tensor4) : Tensor4 × List Mat :=
  (X, styles_Y.map gram)

/-- One epoch of `train` of Gatys.py (lines 201-261), L-BFGS branch:
`trainer.step(closure)` mutates the image in place (the closure's
zero_grad / forward / backward and the optimizer arithmetic are library
internals, abstracted as `stepFn epoch`), then the loss is recomputed
via `extract_features` + `compute_loss` (the frozen network forward is
abstracted as `features`) and its scalar `ll.item()` is logged to the
summary writer — modelled by the returned list of per-epoch scalars,
`none` standing for a non-finite (`NaN`) value.  A raised exception
inside `compute_loss` propagates out of the loop (`Option.bind`),
aborting `train`; nothing else interrupts the `range(num_epochs)` loop,
and the logged loss never influences control flow.  The learning-rate
scheduler only feeds the optimizer, hence lives inside `stepFn`. -/
def trainBody (stepFn : ℕ → Tensor4 → Tensor4)
    (features : Tensor4 → List Tensor4 × List Tensor4)
    (contents_Y : List Tensor4) (styles_Y_gram : List Mat)
    (st : Tensor4 × List (Option ℚ)) (epoch : ℕ) :
    Option (Tensor4 × List (Option ℚ)) := do
  let X1 := stepFn epoch st.1
  let fe := features X1
  let r ← compute_loss X1 fe.1 fe.2 contents_Y styles_Y_gram
  pure (X1, st.2 ++ [r.2.2.2])

/-- Embeds `train` of Gatys.py (lines 201-261): the `range(num_epochs)` loop,
folding `trainBody` from the initialization produced by `get_inits`. -/
def train (stepFn : ℕ → Tensor4 → Tensor4)
    (features : Tensor4 → List Tensor4 × List Tensor4)
    (X : Tensor4) (contents_Y styles_Y : List Tensor4) (num_epochs : ℕ) :
    Option (Tensor4 × List (Option ℚ)) :=
  let init := get_inits X styles_Y
  (List.range num_epochs).foldlM (trainBody stepFn features contents_Y init.2)
    (init.1, ([] : List (Option ℚ)))

/-- The image trajectory of `train`: the step function folded over the
epoch indices (the loop never reads the loss to decide anything). -/
def foldSteps (stepFn : ℕ → Tensor4 → Tensor4) (n : ℕ) (X : Tensor4) : Tensor4 :=
  (List.range n).foldl (fun x epoch => stepFn epoch x) X

end Gatys

/-! ## Differentiable semantics (dual numbers)

To state the detachment invariant we re-run the loss computation on dual
numbers `(value, directional derivative)`.  Each torch operation used by
the losses carries its autograd derivative rule; `detach` is the one
operation that zeroes the derivative component, which is exactly its
autograd semantics.  A perturbation direction that moves only the
reference tensors is a choice of derivative components that is zero on
the synthesized image and its activations and arbitrary on the
references. -/

/-- A scalar with a directional derivative along a fixed perturbation
direction of the inputs. -/
structure Dual where
  val : ℚ
  deriv : ℚ
deriving DecidableEq

namespace Dual

def add (a b : Dual) : Dual := ⟨a.val + b.val, a.deriv + b.deriv⟩

def sub (a b : Dual) : Dual := ⟨a.val - b.val, a.deriv - b.deriv⟩

def mul (a b : Dual) : Dual := ⟨a.val * b.val, a.val * b.deriv + a.deriv * b.val⟩

/-- Multiplication by a constant scalar (a loss weight). -/
def smul (q : ℚ) (a : Dual) : Dual := ⟨q * a.val, q * a.deriv⟩

/-- Division by a constant natural number (an element count). -/
def divNat (a : Dual) (n : ℕ) : Dual := ⟨a.val / n, a.deriv / n⟩

/-- Model of `torch.abs`: the autograd derivative of `|x|` is `sign(x) * dx`,
with `sign(0) = 0`. -/
def abs (a : Dual) : Dual :=
  ⟨|a.val|, (if a.val < 0 then -1 else if a.val = 0 then 0 else 1) * a.deriv⟩

/-- Model of `x.detach()`: same value, zero derivative — the tensor is cut from
the autograd graph. -/
def detach (a : Dual) : Dual := ⟨a.val, 0⟩

end Dual

/-- Sum of a dual-valued family over `Finset.range n` (`torch.sum`
reduces values and derivatives componentwise). -/
def dsum (n : ℕ) (f : ℕ → Dual) : Dual :=
  ⟨∑ i in Finset.range n, (f i).val, ∑ i in Finset.range n, (f i).deriv⟩

/-- Sum of a list of dual scalars (python `sum` on the loss lists). -/
def dsumL (l : List Dual) : Dual := ⟨(l.map Dual.val).sum, (l.map Dual.deriv).sum⟩

/-- A `(1, C, H, W)` tensor of dual scalars. -/
structure Tensor4D where
  C : ℕ
  H : ℕ
  W : ℕ
  data : ℕ → ℕ → ℕ → Dual

/-- A square matrix of dual scalars. -/
structure MatD where
  n : ℕ
  entry : ℕ → ℕ → Dual

/-- Dual-number version of `content_loss` (cf. `content_loss`): mean of the
squared difference against the detached reference. -/
def content_lossD (Y_hat Y : Tensor4D) : Dual :=
  Dual.divNat
    (dsum Y_hat.C (fun c => dsum Y_hat.H (fun h => dsum Y_hat.W (fun w =>
      Dual.mul (Dual.sub (Y_hat.data c h w) (Dual.detach (Y.data c h w)))
               (Dual.sub (Y_hat.data c h w) (Dual.detach (Y.data c h w)))))))
    (Y_hat.C * Y_hat.H * Y_hat.W)

/-- Dual-number version of `gram` (cf. `gram`). -/
def gramD (X : Tensor4D) : MatD :=
  let n : ℕ := 1 * X.C * X.H * X.W / X.C
  ⟨X.C, fun i j =>
    Dual.divNat
      (dsum n (fun k => Dual.mul (X.data i (k / X.W) (k % X.W)) (X.data j (k / X.W) (k % X.W))))
      n⟩

/-- Dual-number version of `style_loss` (cf. `style_loss`): mean of the squared
difference between `gram(Y_hat)` and the detached reference Gram
matrix, divided by 4. -/
def style_lossD (Y_hat : Tensor4D) (gram_Y : MatD) : Dual :=
  Dual.divNat
    (Dual.divNat
      (dsum Y_hat.C (fun i => dsum Y_hat.C (fun j =>
        Dual.mul (Dual.sub ((gramD Y_hat).entry i j) (Dual.detach (gram_Y.entry i j)))
                 (Dual.sub ((gramD Y_hat).entry i j) (Dual.detach (gram_Y.entry i j))))))
      (Y_hat.C * Y_hat.C))
    4

/-- Dual-number version of `tv_loss` (cf. `tv_loss`). -/
def tv_lossD (X : Tensor4D) : Option Dual :=
  if X.C * (X.H - 1) * X.W = 0 ∨ X.C * X.H * (X.W - 1) = 0 then none
  else some (Dual.smul (1 / 2) (Dual.add
    (Dual.divNat
      (dsum X.C (fun c => dsum (X.H - 1) (fun h => dsum X.W (fun w =>
        Dual.abs (Dual.sub (X.data c (h + 1) w) (X.data c h w))))))
      (X.C * (X.H - 1) * X.W))
    (Dual.divNat
      (dsum X.C (fun c => dsum X.H (fun h => dsum (X.W - 1) (fun w =>
        Dual.abs (Dual.sub (X.data c h (w + 1)) (X.data c h w))))))
      (X.C * X.H * (X.W - 1)))))

/-- Dual-number version of `compute_loss` of Gatys.py (cf. `Gatys.compute_loss`):
same structure, with the loss weights of Gatys.py. -/
def compute_lossD (X : Tensor4D) (contents_Y_hat styles_Y_hat contents_Y : List Tensor4D)
    (styles_Y_gram : List MatD) :
    Option (List Dual × List Dual × Option Dual × Option Dual) :=
  let contents_l := List.zipWith
    (fun Y_hat Y => Dual.smul Gatys.CONTENT_WEIGHT (content_lossD Y_hat Y))
    contents_Y_hat contents_Y
  let styles_l := List.zipWith
    (fun Y_hat Y => Dual.smul Gatys.STYLE_WEIGHT (style_lossD Y_hat Y))
    styles_Y_hat styles_Y_gram
  let tv_l := (tv_lossD X).map (fun t => Dual.smul Gatys.TV_WEIGHT t)
  if styles_l.length = 0 then none
  else some (contents_l, styles_l, tv_l,
    tv_l.map (fun t => Dual.add (Dual.add (Dual.divNat (dsumL styles_l) styles_l.length)
      (dsumL contents_l)) t))

/-! ## Predicates and concrete inputs used by the theorems -/

/-- Each channel plane of the image is spatially constant (all spatial
positions of a channel hold the same value). -/
def SpatiallyConstant (X : Tensor4) : Prop :=
  ∀ c < X.C, ∀ h < X.H, ∀ w < X.W, ∀ h' < X.H, ∀ w' < X.W,
    X.data c h w = X.data c h' w'

/-- Some pixel differs from its vertical or horizontal neighbor (within
the same channel). -/
def HasNeighborDiff (X : Tensor4) : Prop :=
  (∃ c < X.C, ∃ h, h + 1 < X.H ∧ ∃ w < X.W, X.data c (h + 1) w ≠ X.data c h w) ∨
  (∃ c < X.C, ∃ h < X.H, ∃ w, w + 1 < X.W ∧ X.data c h (w + 1) ≠ X.data c h w)

/-- A `(1, 1, 1, 1)` activation tensor holding the value 1. -/
def oneT : Tensor4 := ⟨1, 1, 1, fun _ _ _ => 1⟩

/-- A `(1, 1, 1, 1)` constant image holding the value 3. -/
def tinyT : Tensor4 := ⟨1, 1, 1, fun _ _ _ => 3⟩

/-- The `1 × 1` zero matrix, used as a reference Gram matrix. -/
def zeroMat : Mat := ⟨1, fun _ _ => 0⟩

/-- A constant `(1, 1, 2, 2)` image (both spatial dimensions ≥ 2). -/
def constX2 : Tensor4 := ⟨1, 2, 2, fun _ _ _ => 0⟩

/-- A `(1, 1, 1, 2)` image: height 1, so `tv_loss` has an empty vertical
difference tensor. -/
def narrowX : Tensor4 := ⟨1, 1, 2, fun _ _ _ => 0⟩

/-- A `(1, 2, 1, 1)` activation tensor with distinct channel values. -/
def twoChanT : Tensor4 := ⟨2, 1, 1, fun c _ _ => (c : ℚ) + 1⟩

/-- A concrete optimizer step: add 1 to every entry of the image. -/
def stepPlusOne : ℕ → Tensor4 → Tensor4 :=
  fun _ x => ⟨x.C, x.H, x.W, fun c h w => x.data c h w + 1⟩

/-- A concrete feature extractor: no content activations and a single
fixed style activation. -/
def featsOneStyle : Tensor4 → List Tensor4 × List Tensor4 := fun _ => ([], [oneT])

/-- The identity layer. -/
def idLayer : Layer := fun t => t

/-- A constant dual-valued `(1, 1, 2, 2)` image with zero derivative
component (it is not moved by the perturbation direction). -/
def zeroXD : Tensor4D := ⟨1, 2, 2, fun _ _ _ => ⟨0, 0⟩⟩

/-- A dual-valued `(1, 1, 1, 1)` activation with zero derivative
component. -/
def oneTD : Tensor4D := ⟨1, 1, 1, fun _ _ _ => ⟨1, 0⟩⟩

/-- A dual-valued reference activation whose derivative component is 1:
the perturbation direction moves this reference. -/
def refD : Tensor4D := ⟨1, 1, 1, fun _ _ _ => ⟨0, 1⟩⟩

/-- A dual-valued reference Gram matrix moved by the perturbation
direction. -/
def gMD : MatD := ⟨1, fun _ _ => ⟨0, 1⟩⟩

/-! ## Helper lemmas -/

/-- A triple sum of absolute values is positive as soon as one entry in
range is nonzero. -/
theorem sum_abs_pos_of_mem {A B C : ℕ} (f : ℕ → ℕ → ℕ → ℚ) (a b c : ℕ)
    (ha : a < A) (hb : b < B) (hc : c < C) (hf : f a b c ≠ 0) :
    0 < ∑ i in Finset.range A, ∑ j in Finset.range B, ∑ k in Finset.range C, |f i j k| := by
  have habs : ∀ i j k : ℕ, (0 : ℚ) ≤ |f i j k| := fun i j k => abs_nonneg _
  refine Finset.sum_pos' (fun i _ => Finset.sum_nonneg fun j _ =>
    Finset.sum_nonneg fun k _ => habs i j k) ⟨a, Finset.mem_range.mpr ha, ?_⟩
  refine Finset.sum_pos' (fun j _ => Finset.sum_nonneg fun k _ => habs a j k)
    ⟨b, Finset.mem_range.mpr hb, ?_⟩
  refine Finset.sum_pos' (fun k _ => habs a b k) ⟨c, Finset.mem_range.mpr hc, ?_⟩
  exact abs_pos.mpr hf

/-- A triple sum of absolute values is nonnegative. -/
theorem sum_abs_nonneg {A B C : ℕ} (f : ℕ → ℕ → ℕ → ℚ) :
    0 ≤ ∑ i in Finset.range A, ∑ j in Finset.range B, ∑ k in Finset.range C, |f i j k| :=
  Finset.sum_nonneg fun _ _ => Finset.sum_nonneg fun _ _ =>
    Finset.sum_nonneg fun _ _ => abs_nonneg _

/-- Weighting a zipped loss list is mapping the weight over the raw
zipped losses. -/
theorem zipWith_mul_eq_map {α : Type} (w : ℚ) (f : Tensor4 → α → ℚ)
    (l1 : List Tensor4) (l2 : List α) :
    List.zipWith (fun a b => f a b * w) l1 l2 = (List.zipWith f l1 l2).map (· * w) := by
  induction l1 generalizing l2 with
  | nil => simp
  | cons a l ih => cases l2 <;> simp [ih]

/-- Summing a list multiplied elementwise by a constant. -/
theorem sum_map_mul (w : ℚ) (l : List ℚ) : (l.map (· * w)).sum = l.sum * w := by
  induction l with
  | nil => simp
  | cons a l ih => simp [ih, add_mul]

/-- Zipping two replicated lists replicates the combined value. -/
theorem zipWith_replicate_eq {α β γ : Type} (f : α → β → γ) (a : α) (b : β) (n : ℕ) :
    List.zipWith f (List.replicate n a) (List.replicate n b) = List.replicate n (f a b) := by
  induction n with
  | zero => simp
  | succ n ih => simp [List.replicate_succ, ih]

/-- Concrete evaluation: the total-variation loss of the constant
`(1,1,2,2)` image is 0. -/
theorem tv_loss_constX2 : tv_loss constX2 = some 0 := by
  rw [tv_loss, if_neg (by decide)]
  have hv : meanV constX2 = 0 := by
    simp [meanV, constX2]
  have hh : meanH constX2 = 0 := by
    simp [meanH, constX2]
  rw [hv, hh]
  norm_num

/-- Concrete evaluation: the style loss of the all-ones `(1,1,1,1)`
activation against the zero reference Gram matrix is `1/4`. -/
theorem style_loss_oneT_zeroMat : style_loss oneT zeroMat = 1 / 4 := by
  simp [style_loss, gram, oneT, zeroMat, Tensor4.numel, Finset.sum_range_one]

/-! ## Claim theorems -/

/-- C2. For every activation tensor of shape `(1, C, H, W)` with
positive dimensions, `gram` returns a `(C, C)` matrix equal to the
product of the `(C, H*W)`-reshaped tensor with its own transpose divided
by the number of spatial positions `H*W`, and this matrix is symmetric. -/
theorem gram_reshape_matmul_symm (X : Tensor4) (hC : 0 < X.C) :
    (gram X).n = X.C ∧
    (∀ i j, (gram X).entry i j =
      (∑ k in Finset.range (X.H * X.W),
          X.data i (k / X.W) (k % X.W) * X.data j (k / X.W) (k % X.W)) / (X.H * X.W)) ∧
    (∀ i j, (gram X).entry i j = (gram X).entry j i) := by
  have hn : X.numel / X.C = X.H * X.W := by
    unfold Tensor4.numel
    rw [one_mul, mul_assoc, Nat.mul_div_cancel_left _ hC]
  refine ⟨rfl, ?_, ?_⟩
  · intro i j
    simp only [gram, hn]
    push_cast
    ring
  · intro i j
    simp only [gram]
    congr 1
    exact Finset.sum_congr rfl fun k _ => mul_comm _ _

/-- Witness for `gram_reshape_matmul_symm` at a concrete `(1,2,1,1)`
tensor. -/
theorem gram_reshape_matmul_symm_witness :
    (gram twoChanT).n = twoChanT.C ∧
    (gram twoChanT).entry 0 1 = (gram twoChanT).entry 1 0 :=
  ⟨(gram_reshape_matmul_symm twoChanT (by decide)).1,
   (gram_reshape_matmul_symm twoChanT (by decide)).2.2 0 1⟩

/-- C9. For every image tensor with positive dimensions, `tv_loss`
yields no finite value (the mean of an empty difference tensor is `NaN`)
exactly when the height or the width is 1; it is finite precisely when
both spatial dimensions are at least 2. -/
theorem tv_loss_nan_iff_degenerate (X : Tensor4) (hC : 0 < X.C) (hH : 0 < X.H)
    (hW : 0 < X.W) :
    tv_loss X = none ↔ (X.H = 1 ∨ X.W = 1) := by
  have key : (X.C * (X.H - 1) * X.W = 0 ∨ X.C * X.H * (X.W - 1) = 0) ↔
      (X.H = 1 ∨ X.W = 1) := by
    simp only [Nat.mul_eq_zero]
    omega
  rw [tv_loss]
  by_cases h : X.C * (X.H - 1) * X.W = 0 ∨ X.C * X.H * (X.W - 1) = 0
  · rw [if_pos h]
    simp only [true_iff]
    exact key.mp h
  · rw [if_neg h]
    simp only [reduceCtorEq, false_iff]
    exact fun hx => h (key.mpr hx)

/-- Witness for `tv_loss_nan_iff_degenerate` at the concrete
`(1,1,1,2)` image. -/
theorem tv_loss_nan_iff_degenerate_witness :
    tv_loss narrowX = none ↔ (narrowX.H = 1 ∨ narrowX.W = 1) :=
  tv_loss_nan_iff_degenerate narrowX (by decide) (by decide) (by decide)

/-- C5 counterexample. The constant `(1,1,1,1)` image is spatially
constant, yet `tv_loss` does not return 0 on it (both difference
tensors are empty, so the result is `NaN`, not a finite value): the
claim fails for images with a spatial dimension below 2. -/
theorem tv_loss_constant_degenerate_cex :
    SpatiallyConstant tinyT ∧ tv_loss tinyT ≠ some 0 := by
  constructor
  · intro c _ h _ w _ h' _ w' _
    rfl
  · decide

/-- C5 amended. For every image tensor with at least one channel and
both spatial dimensions at least 2: `tv_loss` returns half the mean
absolute vertical-neighbor difference plus half the mean absolute
horizontal-neighbor difference; it returns exactly 0 on a spatially
constant image; and it returns a strictly positive value whenever some
pixel differs from a vertical or horizontal neighbor. -/
theorem tv_loss_spec_amended (X : Tensor4) (hC : 0 < X.C) (hH : 2 ≤ X.H) (hW : 2 ≤ X.W) :
    tv_loss X = some ((1 / 2) * meanV X + (1 / 2) * meanH X) ∧
    (SpatiallyConstant X → tv_loss X = some 0) ∧
    (HasNeighborDiff X → ∃ q, tv_loss X = some q ∧ 0 < q) := by
  have hcond : ¬(X.C * (X.H - 1) * X.W = 0 ∨ X.C * X.H * (X.W - 1) = 0) := by
    simp only [Nat.mul_eq_zero]
    omega
  have hform : tv_loss X = some ((1 / 2) * (meanV X + meanH X)) := by
    rw [tv_loss, if_neg hcond]
  have hVnonneg : 0 ≤ meanV X := by
    unfold meanV
    exact div_nonneg (sum_abs_nonneg _) (Nat.cast_nonneg _)
  have hHnonneg : 0 ≤ meanH X := by
    unfold meanH
    exact div_nonneg (sum_abs_nonneg _) (Nat.cast_nonneg _)
  refine ⟨by rw [hform]; ring_nf, ?_, ?_⟩
  · intro hconst
    have hV : meanV X = 0 := by
      unfold meanV
      rw [Finset.sum_eq_zero, zero_div]
      intro c hc
      rw [Finset.sum_eq_zero]
      intro h hh
      rw [Finset.sum_eq_zero]
      intro w hw
      rw [Finset.mem_range] at hc hh hw
      have he : X.data c (h + 1) w = X.data c h w :=
        hconst c hc (h + 1) (by omega) w hw h (by omega) w hw
      rw [he, sub_self, abs_zero]
    have hHm : meanH X = 0 := by
      unfold meanH
      rw [Finset.sum_eq_zero, zero_div]
      intro c hc
      rw [Finset.sum_eq_zero]
      intro h hh
      rw [Finset.sum_eq_zero]
      intro w hw
      rw [Finset.mem_range] at hc hh hw
      have he : X.data c h (w + 1) = X.data c h w :=
        hconst c hc h (by omega) (w + 1) (by omega) h (by omega) w (by omega)
      rw [he, sub_self, abs_zero]
    rw [hform, hV, hHm]
    norm_num
  · intro hdiff
    refine ⟨(1 / 2) * (meanV X + meanH X), hform, ?_⟩
    have hpos : 0 < meanV X + meanH X := by
      rcases hdiff with ⟨c, hc, h, hh, w, hw, hne⟩ | ⟨c, hc, h, hh, w, hw, hne⟩
      · have hV : 0 < meanV X := by
          unfold meanV
          have hden : (0 : ℚ) < ((X.C * (X.H - 1) * X.W : ℕ) : ℚ) := by
            have h1 : 0 < X.H - 1 := by omega
            exact_mod_cast Nat.mul_pos (Nat.mul_pos hC h1) (by omega)
          refine div_pos ?_ hden
          exact sum_abs_pos_of_mem (fun c h w => X.data c (h + 1) w - X.data c h w)
            c h w hc (by omega) hw (sub_ne_zero.mpr hne)
        linarith
      · have hHm : 0 < meanH X := by
          unfold meanH
          have hden : (0 : ℚ) < ((X.C * X.H * (X.W - 1) : ℕ) : ℚ) := by
            have h1 : 0 < X.W - 1 := by omega
            exact_mod_cast Nat.mul_pos (Nat.mul_pos hC (by omega)) h1
          refine div_pos ?_ hden
          exact sum_abs_pos_of_mem (fun c h w => X.data c h (w + 1) - X.data c h w)
            c h w hc hh (by omega) (sub_ne_zero.mpr hne)
        linarith
    positivity

/-- Witness for `tv_loss_spec_amended` at a concrete `(1,1,2,2)` image
with one vertical neighbor difference. -/
theorem tv_loss_spec_amended_witness :
    HasNeighborDiff ⟨1, 2, 2, fun _ h _ => (h : ℚ)⟩ ∧
    ∃ q, tv_loss ⟨1, 2, 2, fun _ h _ => (h : ℚ)⟩ = some q ∧ 0 < q := by
  have hd : HasNeighborDiff ⟨1, 2, 2, fun _ h _ => (h : ℚ)⟩ := by
    left
    exact ⟨0, by decide, 0, by decide, 0, by decide, by norm_num⟩
  exact ⟨hd, (tv_loss_spec_amended ⟨1, 2, 2, fun _ h _ => (h : ℚ)⟩
    (by decide) (by decide) (by decide)).2.2 hd⟩

/-- C10. On an empty list of style activations (with any content
lists and any image whose `tv_loss` is finite), `compute_loss` in
Gatys.py raises (`sum(styles_l) / len(styles_l)` divides by zero), so it
yields no value; `compute_loss` in main.py returns the four values with
an empty style list, a total whose style term `sum([]) / 5` is 0, hence
equal to the summed weighted content losses (the tv term is weighted by
0).  Nonemptiness of the style list is thus necessary for the Gatys
variant to return a value. -/
theorem compute_loss_empty_styles (X : Tensor4) (contents_Y_hat contents_Y : List Tensor4)
    (t : ℚ) (ht : tv_loss X = some t) :
    Gatys.compute_loss X contents_Y_hat [] contents_Y [] = none ∧
    MainPy.compute_loss X contents_Y_hat [] contents_Y [] =
      (weighted_content_losses MainPy.content_weight contents_Y_hat contents_Y, [], some 0,
        some (weighted_content_losses MainPy.content_weight contents_Y_hat contents_Y).sum) := by
  constructor
  · rw [Gatys.compute_loss]
    simp [weighted_style_losses]
  · rw [MainPy.compute_loss]
    simp [weighted_style_losses, ht, MainPy.styleTerm, MainPy.tv_weight]

/-- Witness for `compute_loss_empty_styles` at the concrete constant
`(1,1,2,2)` image and empty content lists. -/
theorem compute_loss_empty_styles_witness :
    Gatys.compute_loss constX2 [] [] [] [] = none ∧
    MainPy.compute_loss constX2 [] [] [] [] =
      (weighted_content_losses MainPy.content_weight [] [], [], some 0,
        some (weighted_content_losses MainPy.content_weight [] []).sum) :=
  compute_loss_empty_styles constX2 [] [] 0 tv_loss_constX2

/-- C1 counterexample. At a single style layer, `compute_loss` of
main.py returns the total 250, while the claimed combination rule
`content_weight * sum(content losses) + style_weight * mean(style losses)
+ tv_weight * tv` evaluates to 1250 (main.py divides the summed style
losses by the literal 5, not by the layer count): the claim fails for
the main.py variant on style lists whose length is not 5. -/
theorem mainpy_total_not_mean_cex :
    tv_loss constX2 = some 0 ∧
    (MainPy.compute_loss constX2 [] [oneT] [] [zeroMat]).2.2.2 = some 250 ∧
    (MainPy.compute_loss constX2 [] [oneT] [] [zeroMat]).2.2.2 ≠
      some (MainPy.content_weight * (List.zipWith content_loss ([] : List Tensor4) []).sum
          + MainPy.style_weight * ((List.zipWith style_loss [oneT] [zeroMat]).sum
              / ((List.zipWith style_loss [oneT] [zeroMat]).length : ℚ))
          + MainPy.tv_weight * 0) := by
  have htot : (MainPy.compute_loss constX2 [] [oneT] [] [zeroMat]).2.2.2 = some 250 := by
    rw [MainPy.compute_loss]
    simp [weighted_style_losses, weighted_content_losses, tv_loss_constX2,
      MainPy.styleTerm, MainPy.tv_weight, MainPy.style_weight, style_loss_oneT_zeroMat]
    norm_num
  refine ⟨tv_loss_constX2, htot, ?_⟩
  rw [htot]
  simp [style_loss_oneT_zeroMat, MainPy.style_weight, MainPy.content_weight,
    MainPy.tv_weight]
  norm_num

/-- C1 amended. For every content activation list, every pair of
style activation/reference lists zipping to a nonempty style loss list,
and every current image with finite `tv_loss`, `compute_loss` of
Gatys.py returns the four values — the weighted content losses, the
weighted style losses, the weighted tv loss — and a total equal to
`content_weight * sum(content losses) + style_weight * mean(style
losses) + tv_weight * tv` (mean = sum divided by the number of style
layers); the main.py variant instead divides the summed weighted style
losses by the literal constant 5. -/
theorem gatys_total_combination (X : Tensor4) (contents_Y_hat contents_Y styles_Y_hat :
    List Tensor4) (styles_Y_gram : List Mat)
    (hs : List.zipWith style_loss styles_Y_hat styles_Y_gram ≠ []) (t : ℚ)
    (ht : tv_loss X = some t) :
    Gatys.compute_loss X contents_Y_hat styles_Y_hat contents_Y styles_Y_gram =
      some (weighted_content_losses Gatys.CONTENT_WEIGHT contents_Y_hat contents_Y,
            weighted_style_losses Gatys.STYLE_WEIGHT styles_Y_hat styles_Y_gram,
            some (t * Gatys.TV_WEIGHT),
            some (Gatys.CONTENT_WEIGHT * (List.zipWith content_loss contents_Y_hat contents_Y).sum
                + Gatys.STYLE_WEIGHT * ((List.zipWith style_loss styles_Y_hat styles_Y_gram).sum
                    / ((List.zipWith style_loss styles_Y_hat styles_Y_gram).length : ℚ))
                + Gatys.TV_WEIGHT * t)) := by
  have hlen : (weighted_style_losses Gatys.STYLE_WEIGHT styles_Y_hat styles_Y_gram).length ≠ 0 := by
    rw [weighted_style_losses, zipWith_mul_eq_map, List.length_map]
    exact fun h => hs (List.length_eq_zero.mp h)
  rw [Gatys.compute_loss]
  rw [if_neg hlen, ht]
  simp only [Option.map_some']
  refine congrArg some ?_
  refine congrArg (Prod.mk _) ?_
  refine congrArg (Prod.mk _) ?_
  refine congrArg (Prod.mk _) ?_
  refine congrArg some ?_
  rw [Gatys.styleTerm, weighted_style_losses, weighted_content_losses,
    zipWith_mul_eq_map, zipWith_mul_eq_map, sum_map_mul, sum_map_mul, List.length_map,
    mul_comm ((List.zipWith style_loss styles_Y_hat styles_Y_gram).sum) Gatys.STYLE_WEIGHT,
    mul_div_assoc]
  ring

/-- Witness for `gatys_total_combination` at a concrete input with one
style layer. -/
theorem gatys_total_combination_witness :
    Gatys.compute_loss constX2 [] [oneT] [] [zeroMat] =
      some (weighted_content_losses Gatys.CONTENT_WEIGHT [] [],
            weighted_style_losses Gatys.STYLE_WEIGHT [oneT] [zeroMat],
            some (0 * Gatys.TV_WEIGHT),
            some (Gatys.CONTENT_WEIGHT * (List.zipWith content_loss ([] : List Tensor4) []).sum
                + Gatys.STYLE_WEIGHT * ((List.zipWith style_loss [oneT] [zeroMat]).sum
                    / ((List.zipWith style_loss [oneT] [zeroMat]).length : ℚ))
                + Gatys.TV_WEIGHT * 0)) :=
  gatys_total_combination constX2 [] [] [oneT] [zeroMat] (by simp) 0 tv_loss_constX2

/-- C4. The two style-normalization variants — Gatys.py dividing the
summed weighted style losses by `len(styles_l)`, main.py dividing by the
literal constant 5 — agree on every weighted style loss list of length
5, and for every other length there are style activation/reference
lists of that length on which the two `compute_loss` totals differ (at
length 0 the Gatys variant raises while main.py returns a value). -/
theorem style_normalization_equiv_iff_five :
    (∀ (styles_Y_hat : List Tensor4) (styles_Y_gram : List Mat),
        (weighted_style_losses Gatys.STYLE_WEIGHT styles_Y_hat styles_Y_gram).length = 5 →
        Gatys.styleTerm (weighted_style_losses Gatys.STYLE_WEIGHT styles_Y_hat styles_Y_gram) =
          MainPy.styleTerm
            (weighted_style_losses MainPy.style_weight styles_Y_hat styles_Y_gram)) ∧
    (∀ n : ℕ, n ≠ 5 →
        (Gatys.compute_loss constX2 [] (List.replicate n oneT) []
            (List.replicate n zeroMat)).map (fun r => r.2.2.2) ≠
          some ((MainPy.compute_loss constX2 [] (List.replicate n oneT) []
            (List.replicate n zeroMat)).2.2.2)) := by
  have hws : ∀ w : ℚ, ∀ n : ℕ,
      weighted_style_losses w (List.replicate n oneT) (List.replicate n zeroMat) =
        List.replicate n (1 / 4 * w) := by
    intro w n
    rw [weighted_style_losses, zipWith_replicate_eq, style_loss_oneT_zeroMat]
  constructor
  · intro styles_Y_hat styles_Y_gram hlen
    have hw : Gatys.STYLE_WEIGHT = MainPy.style_weight := rfl
    rw [Gatys.styleTerm, MainPy.styleTerm, hlen, hw]
    norm_num
  · intro n hn
    rcases Nat.eq_zero_or_pos n with h0 | hpos
    · subst h0
      rw [Gatys.compute_loss]
      simp [weighted_style_losses]
    · have hn0 : n ≠ 0 := by omega
      have hcast : ((n : ℚ)) ≠ 0 := Nat.cast_ne_zero.mpr hn0
      have h1250G : (1 : ℚ) / 4 * Gatys.STYLE_WEIGHT = 1250 := by
        norm_num [Gatys.STYLE_WEIGHT]
      have h1250M : (1 : ℚ) / 4 * MainPy.style_weight = 1250 := by
        norm_num [MainPy.style_weight]
      have hsumr : (List.replicate n (1250 : ℚ)).sum = (n : ℚ) * 1250 := by
        rw [List.sum_replicate, nsmul_eq_mul]
      have hG : (Gatys.compute_loss constX2 [] (List.replicate n oneT) []
          (List.replicate n zeroMat)).map (fun r => r.2.2.2) = some (some 1250) := by
        rw [Gatys.compute_loss, hws, h1250G, tv_loss_constX2, if_neg (by simp [hn0])]
        simp only [Option.map_some']
        refine congrArg some (congrArg some ?_)
        rw [Gatys.styleTerm, hsumr]
        simp [weighted_content_losses, Gatys.TV_WEIGHT, List.length_replicate,
          mul_comm (n : ℚ) 1250, mul_div_assoc, div_self hcast]
      have hM : (MainPy.compute_loss constX2 [] (List.replicate n oneT) []
          (List.replicate n zeroMat)).2.2.2 = some (250 * n) := by
        rw [MainPy.compute_loss, hws, h1250M]
        simp only [tv_loss_constX2, Option.map_some']
        refine congrArg some ?_
        rw [MainPy.styleTerm, hsumr]
        simp [weighted_content_losses, MainPy.tv_weight]
        ring
      rw [hG, hM]
      intro heq
      have h2 : (1250 : ℚ) = 250 * (n : ℚ) := by
        have h4 := Option.some.inj (Option.some.inj heq)
        push_cast at h4
        linarith
      have h3 : (n : ℚ) = 5 := by linarith
      exact hn (by exact_mod_cast h3)

/-- Witness for `style_normalization_equiv_iff_five`: the two style
terms agree at five style layers, and the two totals differ at three
style layers. -/
theorem style_normalization_equiv_iff_five_witness :
    Gatys.styleTerm (weighted_style_losses Gatys.STYLE_WEIGHT (List.replicate 5 oneT)
        (List.replicate 5 zeroMat)) =
      MainPy.styleTerm (weighted_style_losses MainPy.style_weight (List.replicate 5 oneT)
        (List.replicate 5 zeroMat)) ∧
    (Gatys.compute_loss constX2 [] (List.replicate 3 oneT) []
        (List.replicate 3 zeroMat)).map (fun r => r.2.2.2) ≠
      some ((MainPy.compute_loss constX2 [] (List.replicate 3 oneT) []
        (List.replicate 3 zeroMat)).2.2.2) :=
  ⟨style_normalization_equiv_iff_five.1 _ _ (by simp [weighted_style_losses]),
   style_normalization_equiv_iff_five.2 3 (by decide)⟩

/-- C8. Running the training loop for 0 steps returns the
synthesized image unchanged from its initialization: exactly the copy
of the content image `X` installed by `get_inits` (with an empty loss
log, since no loop iteration ran). -/
theorem train_zero_epochs_returns_init (stepFn : ℕ → Tensor4 → Tensor4)
    (features : Tensor4 → List Tensor4 × List Tensor4)
    (X : Tensor4) (contents_Y styles_Y : List Tensor4) :
    Gatys.train stepFn features X contents_Y styles_Y 0 =
      some ((Gatys.get_inits X styles_Y).1, []) ∧
    (Gatys.get_inits X styles_Y).1 = X :=
  ⟨rfl, rfl⟩

/-- If one epoch of the loop completes, the image is the stepped one and
the log has grown by the logged scalar, whatever the loss value was. -/
theorem trainBody_result (stepFn : ℕ → Tensor4 → Tensor4)
    (features : Tensor4 → List Tensor4 × List Tensor4)
    (contents_Y : List Tensor4) (styles_Y_gram : List Mat)
    (st res : Tensor4 × List (Option ℚ)) (e : ℕ)
    (h : Gatys.trainBody stepFn features contents_Y styles_Y_gram st e = some res) :
    res.1 = stepFn e st.1 ∧ res.2.length = st.2.length + 1 := by
  rw [Gatys.trainBody] at h
  cases hc : Gatys.compute_loss (stepFn e st.1) (features (stepFn e st.1)).1
      (features (stepFn e st.1)).2 contents_Y styles_Y_gram with
  | none =>
    rw [hc] at h
    simp at h
  | some r =>
    rw [hc] at h
    simp only [Option.bind_eq_bind, Option.some_bind, Option.pure_def] at h
    cases Option.some.inj h
    simp

/-- C6 counterexample. A concrete run in which the logged total loss
is non-finite (`none`, a `NaN` from the empty vertical-difference mean
of a height-1 image) already at step 0, yet the loop does not abort: it
runs both configured epochs, the image receives both optimizer steps
(the pixel value grows from 0 to 2), and the run returns normally
instead of reporting the offending term and step. -/
theorem train_continues_after_nonfinite_cex :
    (Gatys.train stepPlusOne featsOneStyle narrowX [] [oneT] 2).map
      (fun st => (st.1.data 0 0 0, st.2)) = some (2, [none, none]) := by
  have hany : ∀ x : Tensor4, x.H = 1 →
      Gatys.compute_loss x [] [oneT] [] [gram oneT] =
        some ([], weighted_style_losses Gatys.STYLE_WEIGHT [oneT] [gram oneT], none, none) := by
    intro x hx
    rw [Gatys.compute_loss]
    have htv : tv_loss x = none := by
      rw [tv_loss, if_pos]
      left
      rw [hx]
      simp
    rw [htv, if_neg (by simp [weighted_style_losses])]
    simp [weighted_content_losses]
  have hr2 : List.range 2 = [0, 1] := by decide
  have h0 := hany (stepPlusOne 0 narrowX) rfl
  have h1 := hany (stepPlusOne 1 (stepPlusOne 0 narrowX)) rfl
  rw [Gatys.train, hr2]
  simp only [List.foldlM_cons, List.foldlM_nil, Gatys.trainBody, Gatys.get_inits,
    featsOneStyle, List.map_cons, List.map_nil, h0, h1, Option.bind_eq_bind,
    Option.some_bind, Option.pure_def, Option.map_some']
  simp [stepPlusOne, narrowX]
  norm_num

/-- C6 amended. The training loop performs no finiteness check:
whenever `train` returns at all (no exception was raised), it has run
all `n` configured epochs — the log has one entry per epoch, non-finite
entries included — and the final image is exactly the step function
folded over all epochs, unaffected by any loss value; a non-finite
(`NaN`) total is logged and the loop continues to the next step rather
than aborting. -/
theorem train_runs_all_epochs (stepFn : ℕ → Tensor4 → Tensor4)
    (features : Tensor4 → List Tensor4 × List Tensor4)
    (X : Tensor4) (contents_Y styles_Y : List Tensor4) (n : ℕ)
    (Xf : Tensor4) (log : List (Option ℚ))
    (h : Gatys.train stepFn features X contents_Y styles_Y n = some (Xf, log)) :
    log.length = n ∧ Xf = Gatys.foldSteps stepFn n X := by
  have aux : ∀ (l : List ℕ) (st res : Tensor4 × List (Option ℚ)),
      List.foldlM (Gatys.trainBody stepFn features contents_Y (styles_Y.map gram)) st l =
        some res →
      res.2.length = st.2.length + l.length ∧
      res.1 = l.foldl (fun x epoch => stepFn epoch x) st.1 := by
    intro l
    induction l with
    | nil =>
      intro st res h2
      rw [List.foldlM_nil] at h2
      cases Option.some.inj h2
      simp
    | cons e l ih =>
      intro st res h2
      rw [List.foldlM_cons] at h2
      cases hb : Gatys.trainBody stepFn features contents_Y (styles_Y.map gram) st e with
      | none =>
        rw [hb] at h2
        simp at h2
      | some st1 =>
        rw [hb] at h2
        simp only [Option.bind_eq_bind, Option.some_bind] at h2
        obtain ⟨hb1, hb2⟩ := trainBody_result stepFn features contents_Y
          (styles_Y.map gram) st st1 e hb
        obtain ⟨ih1, ih2⟩ := ih st1 res h2
        constructor
        · rw [ih1, hb2, List.length_cons]
          omega
        · rw [ih2, List.foldl_cons, hb1]
  have h3 := aux (List.range n) ((Gatys.get_inits X styles_Y).1, []) (Xf, log) h
  obtain ⟨h4, h5⟩ := h3
  refine ⟨?_, ?_⟩
  · simpa using h4
  · exact h5

/-- Witness for `train_runs_all_epochs` at a concrete one-epoch run
whose logged loss is non-finite. -/
theorem train_runs_all_epochs_witness :
    ([none] : List (Option ℚ)).length = 1 ∧
      stepPlusOne 0 narrowX = Gatys.foldSteps stepPlusOne 1 narrowX :=
  train_runs_all_epochs stepPlusOne featsOneStyle narrowX [] [oneT] 1
    (stepPlusOne 0 narrowX) [none] rfl

/-- The start value is bounded by a `foldl max`. -/
theorem init_le_foldl_max (l : List ℕ) : ∀ b, b ≤ l.foldl max b := by
  induction l with
  | nil => exact fun b => le_refl b
  | cons a l ih =>
    intro b
    rw [List.foldl_cons]
    exact le_trans (le_max_left b a) (ih (max b a))

/-- Every element of a list is bounded by the `foldl max` of the list
over any starting value. -/
theorem le_foldl_max (l : List ℕ) : ∀ (b : ℕ), ∀ d ∈ l, d ≤ l.foldl max b := by
  induction l with
  | nil => intro b d hd; cases hd
  | cons a l ih =>
    intro b d hd
    rw [List.foldl_cons]
    rcases List.mem_cons.mp hd with h | h
    · subst h
      exact le_trans (le_max_right b d) (init_le_foldl_max l (max b d))
    · exact ih (max b a) d h

/-- Lookup soundness: `mapM` of element lookups fails as soon as one index reaches past
the list, and succeeds — with one layer per index — when all indices
are in range (python: `[features[i] for i in range(m)]` raises
`IndexError` when some index is out of range). -/
theorem mapM_get_sound (features : List Layer) (l : List ℕ) :
    ((∃ d ∈ l, features.length ≤ d) → l.mapM (fun i => features.get? i) = none) ∧
    ((∀ d ∈ l, d < features.length) →
      ∃ net, l.mapM (fun i => features.get? i) = some net ∧ net.length = l.length) := by
  induction l with
  | nil =>
    refine ⟨?_, fun _ => ⟨[], rfl, rfl⟩⟩
    rintro ⟨d, hd, _⟩
    cases hd
  | cons a l ih =>
    constructor
    · rintro ⟨d, hd, hlen⟩
      rcases List.mem_cons.mp hd with h | h
      · subst h
        have hnone : features.get? d = none := List.get?_eq_none.mpr hlen
        rw [List.mapM_cons, hnone]
        rfl
      · have hl := ih.1 ⟨d, h, hlen⟩
        cases hf : features.get? a with
        | none =>
          rw [List.mapM_cons, hf]
          rfl
        | some layer =>
          rw [List.mapM_cons, hf]
          simp only [hl, Option.bind_eq_bind, Option.some_bind, Option.none_bind]
    · intro hball
      have ha : a < features.length := hball a (List.mem_cons_self a l)
      obtain ⟨net, hnet, hlen⟩ := ih.2 (fun d hd => hball d (List.mem_cons_of_mem a hd))
      refine ⟨features.get ⟨a, ha⟩ :: net, ?_, by simp [hlen]⟩
      rw [List.mapM_cons, List.get?_eq_get ha]
      simp only [hnet, Option.bind_eq_bind, Option.some_bind]
      rfl

/-- The extraction fold over `range(len(net))` never hits an
out-of-range index, whatever the requested depth lists are. -/
theorem extract_features_total (net : List Layer) (X : Tensor4)
    (content_layers style_layers : List ℕ) :
    ∃ r, extract_features net X content_layers style_layers = some r := by
  have aux : ∀ (l : List ℕ), (∀ i ∈ l, i < net.length) →
      ∀ st : Tensor4 × List Tensor4 × List Tensor4,
      ∃ st2, List.foldlM
        (fun (st : Tensor4 × List Tensor4 × List Tensor4) i => do
          let layer ← net.get? i
          let X1 := layer st.1
          let styles := if i ∈ style_layers then st.2.2 ++ [X1] else st.2.2
          let contents := if i ∈ content_layers then st.2.1 ++ [X1] else st.2.1
          pure (X1, contents, styles)) st l = some st2 := by
    intro l
    induction l with
    | nil =>
      intro _ st
      exact ⟨st, rfl⟩
    | cons i l ih =>
      intro hb st
      have hi : i < net.length := hb i (List.mem_cons_self i l)
      have hsome : net.get? i = some (net.get ⟨i, hi⟩) := List.get?_eq_get hi
      obtain ⟨st2, hst2⟩ := ih (fun j hj => hb j (List.mem_cons_of_mem i hj))
        ((net.get ⟨i, hi⟩) st.1,
          if i ∈ content_layers then st.2.1 ++ [(net.get ⟨i, hi⟩) st.1] else st.2.1,
          if i ∈ style_layers then st.2.2 ++ [(net.get ⟨i, hi⟩) st.1] else st.2.2)
      refine ⟨st2, ?_⟩
      rw [List.foldlM_cons]
      simp only [hsome, Option.bind_eq_bind, Option.some_bind]
      exact hst2
  obtain ⟨st2, hst2⟩ := aux (List.range net.length)
    (fun i hi => List.mem_range.mp hi) (X, [], [])
  refine ⟨(st2.2.1, st2.2.2), ?_⟩
  rw [extract_features, hst2]
  rfl

/-- C7. Requesting a layer depth past the pretrained feature list
makes the truncated-network construction fail at startup
(`IndexError` while building `Incomplete_CNN`, before any training
step); conversely, whenever the construction succeeds, every requested
depth lies strictly inside the truncated network, and feature
extraction is total — for any image and any depth sets it returns a
value, never an out-of-range failure at runtime. -/
theorem depth_config_error_at_startup (features : List Layer)
    (content_layers style_layers : List ℕ) :
    ((∃ d ∈ content_layers ++ style_layers, features.length ≤ d) →
      incompleteCNN features content_layers style_layers = none) ∧
    (∀ net, incompleteCNN features content_layers style_layers = some net →
      (∀ d ∈ content_layers ++ style_layers, d < net.length) ∧
      ∀ (X : Tensor4) (cls2 sls2 : List ℕ),
        ∃ r, extract_features net X cls2 sls2 = some r) := by
  constructor
  · rintro ⟨d, hd, hlen⟩
    rw [incompleteCNN]
    refine (mapM_get_sound features _).1 ?_
    refine ⟨(content_layers ++ style_layers).foldl max 0, List.mem_range.mpr (by omega), ?_⟩
    exact le_trans hlen (le_foldl_max (content_layers ++ style_layers) 0 d hd)
  · intro net hnet
    rw [incompleteCNN] at hnet
    have hlen : net.length = (content_layers ++ style_layers).foldl max 0 + 1 := by
      by_cases hb : ∀ e ∈ List.range ((content_layers ++ style_layers).foldl max 0 + 1),
          e < features.length
      · obtain ⟨net2, hnet2, hlen2⟩ := (mapM_get_sound features _).2 hb
        rw [hnet2] at hnet
        cases Option.some.inj hnet
        rw [hlen2, List.length_range]
      · push_neg at hb
        obtain ⟨e, he, hle⟩ := hb
        rw [(mapM_get_sound features _).1 ⟨e, he, hle⟩] at hnet
        cases hnet
    refine ⟨?_, fun X cls2 sls2 => extract_features_total net X cls2 sls2⟩
    intro d hd
    have := le_foldl_max (content_layers ++ style_layers) 0 d hd
    omega

/-- Witness for `depth_config_error_at_startup`: requesting depth 5 from
a two-layer pretrained feature list fails at startup. -/
theorem depth_config_error_at_startup_witness :
    incompleteCNN [idLayer, idLayer] [5] [0] = none :=
  (depth_config_error_at_startup [idLayer, idLayer] [5] [0]).1
    ⟨5, by decide, by decide⟩

/-- Every element of a `zipWith` comes from a pair of elements of the
two lists. -/
theorem mem_zipWith {α β γ : Type} (f : α → β → γ) :
    ∀ (l1 : List α) (l2 : List β), ∀ x ∈ List.zipWith f l1 l2,
      ∃ a ∈ l1, ∃ b ∈ l2, x = f a b := by
  intro l1
  induction l1 with
  | nil =>
    intro l2 x hx
    cases hx
  | cons a l ih =>
    intro l2 x hx
    cases l2 with
    | nil => cases hx
    | cons b l2 =>
      rcases List.mem_cons.mp hx with h | h
      · exact ⟨a, List.mem_cons_self _ _, b, List.mem_cons_self _ _, h⟩
      · obtain ⟨a2, ha2, b2, hb2, hx2⟩ := ih l2 x h
        exact ⟨a2, List.mem_cons_of_mem a ha2, b2, List.mem_cons_of_mem b hb2, hx2⟩

/-- Derivative component of a dual addition. -/
theorem Dual.add_deriv (a b : Dual) : (a.add b).deriv = a.deriv + b.deriv := rfl

/-- Derivative component of a dual division by a count. -/
theorem Dual.divNat_deriv (a : Dual) (n : ℕ) : (a.divNat n).deriv = a.deriv / n := rfl

/-- Derivative component of a dual scalar multiple. -/
theorem Dual.smul_deriv (q : ℚ) (a : Dual) : (Dual.smul q a).deriv = q * a.deriv := rfl

/-- A list sum of dual scalars with zero derivatives has zero
derivative. -/
theorem dsumL_deriv_zero (l : List Dual) (h : ∀ d ∈ l, d.deriv = 0) :
    (dsumL l).deriv = 0 := by
  simp only [dsumL]
  refine List.sum_eq_zero ?_
  intro x hx
  obtain ⟨d, hd, hdx⟩ := List.mem_map.mp hx
  rw [← hdx]
  exact h d hd

/-- The content loss against a detached reference has zero derivative
whenever the prediction does, for any derivative on the reference. -/
theorem content_lossD_deriv_zero (Y_hat Y : Tensor4D)
    (hd : ∀ c h w, (Y_hat.data c h w).deriv = 0) :
    (content_lossD Y_hat Y).deriv = 0 := by
  simp only [content_lossD, Dual.divNat, dsum, Dual.mul, Dual.sub, Dual.detach]
  refine div_eq_zero_iff.mpr (Or.inl ?_)
  refine Finset.sum_eq_zero fun c _ => Finset.sum_eq_zero fun hh _ =>
    Finset.sum_eq_zero fun w _ => ?_
  rw [hd c hh w]
  ring

/-- Gram-matrix entries of a zero-derivative activation have zero
derivative. -/
theorem gramD_deriv_zero (Xt : Tensor4D)
    (h : ∀ c hh w, (Xt.data c hh w).deriv = 0) (i j : ℕ) :
    ((gramD Xt).entry i j).deriv = 0 := by
  simp only [gramD, Dual.divNat, dsum, Dual.mul]
  refine div_eq_zero_iff.mpr (Or.inl ?_)
  refine Finset.sum_eq_zero fun k _ => ?_
  rw [h i _ _, h j _ _]
  ring

/-- The style loss against a detached reference Gram matrix has zero
derivative whenever the prediction does, for any derivative on the
reference. -/
theorem style_lossD_deriv_zero (Y_hat : Tensor4D) (gram_Y : MatD)
    (h : ∀ c hh w, (Y_hat.data c hh w).deriv = 0) :
    (style_lossD Y_hat gram_Y).deriv = 0 := by
  have hg := gramD_deriv_zero Y_hat h
  simp only [style_lossD, Dual.divNat, dsum, Dual.mul, Dual.sub, Dual.detach]
  refine div_eq_zero_iff.mpr (Or.inl (div_eq_zero_iff.mpr (Or.inl ?_)))
  refine Finset.sum_eq_zero fun i _ => Finset.sum_eq_zero fun j _ => ?_
  rw [hg i j]
  ring

/-- A finite total-variation loss of a zero-derivative image has zero
derivative (the `abs` derivative is `sign * dx`). -/
theorem tv_lossD_deriv_zero (Xt : Tensor4D)
    (h : ∀ c hh w, (Xt.data c hh w).deriv = 0) :
    ∀ t, tv_lossD Xt = some t → t.deriv = 0 := by
  intro t ht
  rw [tv_lossD] at ht
  by_cases hcond : Xt.C * (Xt.H - 1) * Xt.W = 0 ∨ Xt.C * Xt.H * (Xt.W - 1) = 0
  · rw [if_pos hcond] at ht
    cases ht
  · rw [if_neg hcond] at ht
    cases Option.some.inj ht
    simp only [Dual.smul, Dual.add, Dual.divNat, dsum, Dual.abs, Dual.sub]
    have h1 : ∀ (A B C : ℕ) (g : ℕ → ℕ → ℕ → Dual) (g2 : ℕ → ℕ → ℕ → Dual),
        (∀ c hh w, (g c hh w).deriv = 0) → (∀ c hh w, (g2 c hh w).deriv = 0) →
        (∑ c in Finset.range A, ∑ hh in Finset.range B, ∑ w in Finset.range C,
          (if ((g c hh w).val - (g2 c hh w).val) < 0 then (-1 : ℚ)
            else if ((g c hh w).val - (g2 c hh w).val) = 0 then 0 else 1) *
            ((g c hh w).deriv - (g2 c hh w).deriv)) = 0 := by
      intro A B C g g2 hg hg2
      refine Finset.sum_eq_zero fun c _ => Finset.sum_eq_zero fun hh _ =>
        Finset.sum_eq_zero fun w _ => ?_
      rw [hg c hh w, hg2 c hh w]
      ring
    rw [h1 _ _ _ (fun c hh w => Xt.data c (hh + 1) w) (fun c hh w => Xt.data c hh w)
        (fun c hh w => h c (hh + 1) w) h,
      h1 _ _ _ (fun c hh w => Xt.data c hh (w + 1)) (fun c hh w => Xt.data c hh w)
        (fun c hh w => h c hh (w + 1)) h]
    norm_num

/-- C3. Along any perturbation direction that moves only the
Content Reference activations and the Style Reference Gram matrices
(the synthesized image and its activations carry zero derivative, the
references carry arbitrary derivatives), the total loss computed by
`compute_loss` has derivative zero: thanks to the `detach` calls in
`content_loss` and `style_loss`, the references contribute no gradient,
so optimization can only ever move the synthesized image.  (The
references themselves are plain inputs of the loss and of the training
loop and are never written by any step.) -/
theorem references_receive_zero_gradient
    (X : Tensor4D) (contents_Y_hat styles_Y_hat contents_Y : List Tensor4D)
    (styles_Y_gram : List MatD)
    (hX : ∀ c h w, (X.data c h w).deriv = 0)
    (hc : ∀ t ∈ contents_Y_hat, ∀ c h w, (t.data c h w).deriv = 0)
    (hs : ∀ t ∈ styles_Y_hat, ∀ c h w, (t.data c h w).deriv = 0)
    (r : List Dual × List Dual × Option Dual × Option Dual)
    (hr : compute_lossD X contents_Y_hat styles_Y_hat contents_Y styles_Y_gram = some r) :
    ∀ l, r.2.2.2 = some l → l.deriv = 0 := by
  intro l hl
  simp only [compute_lossD] at hr
  by_cases hlen : (List.zipWith
      (fun Y_hat Y => Dual.smul Gatys.STYLE_WEIGHT (style_lossD Y_hat Y))
      styles_Y_hat styles_Y_gram).length = 0
  · rw [if_pos hlen] at hr
    cases hr
  · rw [if_neg hlen] at hr
    have htup := (Option.some.inj hr).symm
    subst htup
    dsimp only at hl
    rcases htv : tv_lossD X with _ | t0
    · rw [htv] at hl
      cases hl
    · rw [htv] at hl
      simp only [Option.map_some'] at hl
      have hlval := (Option.some.inj hl).symm
      subst hlval
      have hsd : (dsumL (List.zipWith
          (fun Y_hat Y => Dual.smul Gatys.STYLE_WEIGHT (style_lossD Y_hat Y))
          styles_Y_hat styles_Y_gram)).deriv = 0 := by
        refine dsumL_deriv_zero _ ?_
        intro d hd
        obtain ⟨a, ha, b, hb, hdx⟩ := mem_zipWith _ _ _ d hd
        subst hdx
        simp only [Dual.smul]
        rw [style_lossD_deriv_zero a b (hs a ha), mul_zero]
      have hcd : (dsumL (List.zipWith
          (fun Y_hat Y => Dual.smul Gatys.CONTENT_WEIGHT (content_lossD Y_hat Y))
          contents_Y_hat contents_Y)).deriv = 0 := by
        refine dsumL_deriv_zero _ ?_
        intro d hd
        obtain ⟨a, ha, b, hb, hdx⟩ := mem_zipWith _ _ _ d hd
        subst hdx
        simp only [Dual.smul]
        rw [content_lossD_deriv_zero a b (hc a ha), mul_zero]
      have htd : t0.deriv = 0 := tv_lossD_deriv_zero X hX t0 htv
      simp only [Dual.add_deriv, Dual.divNat_deriv, Dual.smul_deriv]
      rw [hsd, hcd, htd]
      norm_num

/-- Concrete evaluation of the dual-number loss at a constant zero
image, one content layer and one style layer, with the perturbation
direction moving only the references (`refD`, `gMD` carry derivative
1). -/
theorem compute_lossD_concrete :
    compute_lossD zeroXD [oneTD] [oneTD] [refD] [gMD] =
      some ([⟨8, 0⟩], [⟨1250, 0⟩], some ⟨0, 0⟩, some ⟨1258, 0⟩) := by
  simp only [compute_lossD, content_lossD, style_lossD, gramD, tv_lossD, dsum, dsumL,
    Dual.smul, Dual.add, Dual.sub, Dual.mul, Dual.divNat, Dual.abs, Dual.detach,
    zeroXD, oneTD, refD, gMD, Gatys.CONTENT_WEIGHT, Gatys.STYLE_WEIGHT, Gatys.TV_WEIGHT,
    List.zipWith_cons_cons, List.zipWith_nil_right, List.zipWith_nil_left,
    Finset.sum_range_one, Finset.sum_range_succ, Finset.sum_range_zero]
  norm_num

/-- Witness for `references_receive_zero_gradient`: at the concrete
input of `compute_lossD_concrete` the total loss is `1258` with
derivative 0 along the direction perturbing only the references. -/
theorem references_receive_zero_gradient_witness :
    compute_lossD zeroXD [oneTD] [oneTD] [refD] [gMD] =
      some ([⟨8, 0⟩], [⟨1250, 0⟩], some ⟨0, 0⟩, some ⟨1258, 0⟩) ∧
    Dual.deriv ⟨1258, 0⟩ = 0 :=
  ⟨compute_lossD_concrete,
    references_receive_zero_gradient zeroXD [oneTD] [oneTD] [refD] [gMD]
      (fun _ _ _ => rfl)
      (fun t ht c hh w => by rw [List.mem_singleton.mp ht]; rfl)
      (fun t ht c hh w => by rw [List.mem_singleton.mp ht]; rfl)
      ([⟨8, 0⟩], [⟨1250, 0⟩], some ⟨0, 0⟩, some ⟨1258, 0⟩)
      compute_lossD_concrete ⟨1258, 0⟩ rfl⟩

end StyleTransfer
